import Mathlib

/-!
Verification of the Dijkstra core in `Dijkstra.h`: an index-tracked binary
min-heap over pointers into an open-addressing hash table ("HashInTree").

Modelling conventions (a shallow embedding of the C source):

* The hash table's node array is the arena: `store : List (MinHeapNode α β)`.
  A node's `data` field is `Option α`; `none` models a `NULL` data pointer
  (`HashInTree_create` only initializes `data`, so all other fields are
  whatever `malloc` returned; we thread that in through an explicit `junk`
  parameter).
* The heap's backing array is `heap : List (Option Nat)` of length equal to
  the heap's `capacity` (the C array is `calloc`ed, so slots start as `NULL`
  = `none`); a `some p` entry is a pointer to arena slot `p`.  The live
  prefix has length `size`.
* Reading an array out of bounds, or dereferencing a `NULL`/dangling
  pointer, is undefined behavior in the C program; the embedding returns
  `none` (for `Option`-valued operations) or `CRes.undef` in those cases.
* `exit(2)` is modelled by `CRes.fatal s` where `s` is the memory state at
  the moment of exit.
* Each C loop is translated as a fuel-indexed recursion; the fuel passed by
  the wrappers is large enough that exhaustion is unreachable (sift-down
  moves strictly down a binary tree of `size` nodes, sift-up strictly up,
  and linear probing wraps after `size` steps).
-/

/-- One record of the HashInTree arena, mirroring `struct MinHeapNode`:
`data`/`parent` are nullable pointers (`parent` points to another arena
slot), `weight` is the user weight, `heapIndex` the tracked heap slot. -/
structure MinHeapNode (α β : Type) where
  data : Option α
  weight : β
  parent : Option Nat
  heapIndex : Nat
deriving DecidableEq, Repr

/-- The combined memory state: the HashInTree arena (`store`), the heap's
pointer array (`heap`, length = the heap's `capacity`) and the heap's
current `size`. -/
structure DState (α β : Type) where
  store : List (MinHeapNode α β)
  heap : List (Option Nat)
  size : Nat
deriving DecidableEq, Repr

/-- Result of running a piece of C code: normal return, `exit(2)` with the
memory state at the exit, or undefined behavior (out-of-bounds access or
NULL dereference). -/
inductive CRes (γ : Type) where
  | ok : γ → CRes γ
  | fatal : γ → CRes γ
  | undef : CRes γ
deriving DecidableEq, Repr

/-- Positional store into a list; out of range is a no-op (used only at
indices that were bounds-checked or previously dereferenced). -/
def lset {γ : Type} : List γ → Nat → γ → List γ
  | [], _, _ => []
  | _ :: xs, 0, v => v :: xs
  | x :: xs, n + 1, v => x :: lset xs n v

/-- Dereference a nullable arena pointer: `NULL` or a dangling index gives
`none` (undefined behavior at the C level). -/
def storeRead {α β : Type} (store : List (MinHeapNode α β)) (p : Option Nat) :
    Option (MinHeapNode α β) :=
  p.bind store.get?

/-- Write `p->heapIndex = i` for arena pointer index `q`. -/
def setHI {α β : Type} (store : List (MinHeapNode α β)) (q i : Nat) :
    List (MinHeapNode α β) :=
  match store.get? q with
  | some nd => lset store q { nd with heapIndex := i }
  | none => store

/-- Index of the parent of heap slot `i` (`(i - 1) >> 1` in the source,
used only under an `i > 0` guard). -/
def parent_index (i : Nat) : Nat := (i - 1) / 2

/-- Index of the left child of heap slot `i`. -/
def left_child_index (i : Nat) : Nat := 2 * i + 1

/-- Index of the right child of heap slot `i`. -/
def right_child_index (i : Nat) : Nat := 2 * (i + 1)

/-- Probe increment of `HashInTree_find_seat`: `(index+1) % size`. -/
def probeNextSeat (n i : Nat) : Nat := (i + 1) % n

/-- Probe increment of `HashInTree_get_node_by_data`:
`(index == size-1) ? 0 : index+1`. -/
def probeNextLookup (n i : Nat) : Nat := if i = n - 1 then 0 else i + 1

/-- The do-while probe loop of `HashInTree_find_seat`.  Returns
`some (some i)` for the returned slot, `some none` for a returned `NULL`
(table full), `none` for undefined behavior (out-of-bounds slot read). -/
def findSeatAux {α β : Type} (nodes : List (MinHeapNode α β))
    (eqf : α → α → Bool) (key : α) (hash : Nat) :
    Nat → Nat → Option (Option Nat)
  | _, 0 => some none
  | index, fuel + 1 =>
    match nodes.get? index with
    | none => none
    | some nd =>
      match nd.data with
      | none => some (some index)
      | some d =>
        if eqf key d then some (some index)
        else
          let index2 := probeNextSeat nodes.length index
          if index2 = hash then some none
          else findSeatAux nodes eqf key hash index2 fuel

/-- `HashInTree_find_seat`: linear probing from `hashfunc(size, key)` until
an empty slot or a slot whose occupant is `eqf`-equal to the key; returns
`NULL` (`some none`) if the probe wraps around to the start. -/
def HashInTree_find_seat {α β : Type} (nodes : List (MinHeapNode α β))
    (hashf : Nat → α → Nat) (eqf : α → α → Bool) (key : α) :
    Option (Option Nat) :=
  findSeatAux nodes eqf key (hashf nodes.length key)
    (hashf nodes.length key) (nodes.length + 1)

/-- The do-while probe loop of `HashInTree_get_node_by_data`. -/
def getNodeAux {α β : Type} (nodes : List (MinHeapNode α β))
    (eqf : α → α → Bool) (key : α) (hash : Nat) :
    Nat → Nat → Option (Option Nat)
  | _, 0 => some none
  | index, fuel + 1 =>
    match nodes.get? index with
    | none => none
    | some nd =>
      match nd.data with
      | none => some none
      | some d =>
        if eqf key d then some (some index)
        else
          let index2 := probeNextLookup nodes.length index
          if index2 = hash then some none
          else getNodeAux nodes eqf key hash index2 fuel

/-- `HashInTree_get_node_by_data`: same probing, but an empty slot stops the
search with `NULL` ("not found", `some none`). -/
def HashInTree_get_node_by_data {α β : Type} (nodes : List (MinHeapNode α β))
    (hashf : Nat → α → Nat) (eqf : α → α → Bool) (key : α) :
    Option (Option Nat) :=
  getNodeAux nodes eqf key (hashf nodes.length key)
    (hashf nodes.length key) (nodes.length + 1)

/-- State-threaded translation of the `HashInTree_find_seat` loop: the table
is passed through every iteration exactly as the C body leaves it (the body
performs no stores), so the second component exposes the table the caller
is left with. -/
def findSeatAuxT {α β : Type} (eqf : α → α → Bool) (key : α) (hash : Nat) :
    Nat → List (MinHeapNode α β) → Nat →
    Option (Option Nat) × List (MinHeapNode α β)
  | 0, nodes, _ => (some none, nodes)
  | fuel + 1, nodes, index =>
    match nodes.get? index with
    | none => (none, nodes)
    | some nd =>
      match nd.data with
      | none => (some (some index), nodes)
      | some d =>
        if eqf key d then (some (some index), nodes)
        else
          let index2 := probeNextSeat nodes.length index
          if index2 = hash then (some none, nodes)
          else findSeatAuxT eqf key hash fuel nodes index2

/-- State-threaded `HashInTree_find_seat` (see `findSeatAuxT`). -/
def HashInTree_find_seat_st {α β : Type} (nodes : List (MinHeapNode α β))
    (hashf : Nat → α → Nat) (eqf : α → α → Bool) (key : α) :
    Option (Option Nat) × List (MinHeapNode α β) :=
  findSeatAuxT eqf key (hashf nodes.length key) (nodes.length + 1) nodes
    (hashf nodes.length key)

/-- State-threaded translation of the `HashInTree_get_node_by_data` loop. -/
def getNodeAuxT {α β : Type} (eqf : α → α → Bool) (key : α) (hash : Nat) :
    Nat → List (MinHeapNode α β) → Nat →
    Option (Option Nat) × List (MinHeapNode α β)
  | 0, nodes, _ => (some none, nodes)
  | fuel + 1, nodes, index =>
    match nodes.get? index with
    | none => (none, nodes)
    | some nd =>
      match nd.data with
      | none => (some none, nodes)
      | some d =>
        if eqf key d then (some (some index), nodes)
        else
          let index2 := probeNextLookup nodes.length index
          if index2 = hash then (some none, nodes)
          else getNodeAuxT eqf key hash fuel nodes index2

/-- State-threaded `HashInTree_get_node_by_data` (see `getNodeAuxT`). -/
def HashInTree_get_node_by_data_st {α β : Type}
    (nodes : List (MinHeapNode α β)) (hashf : Nat → α → Nat)
    (eqf : α → α → Bool) (key : α) :
    Option (Option Nat) × List (MinHeapNode α β) :=
  getNodeAuxT eqf key (hashf nodes.length key) (nodes.length + 1) nodes
    (hashf nodes.length key)

/-- `HashInTree_create(size)`: a fresh arena whose slots have `data = NULL`;
the remaining fields keep whatever `malloc` left there, supplied by `junk`. -/
def HashInTree_create {α β : Type} (size : Nat)
    (junk : Nat → MinHeapNode α β) : List (MinHeapNode α β) :=
  (List.range size).map fun i => { junk i with data := none }

/-- `MinHeap_create(size)`: a `calloc`ed pointer array (all `NULL`). -/
def MinHeap_create (size : Nat) : List (Option Nat) :=
  List.replicate size none

/-- The while loop of `MinHeap_bubble_up` (lines 260-267): hold the sifted
node's pointer (`thisPtr`) out, and while it is better than the parent,
shift the parent down (updating its `heapIndex`) and move up.  Returns the
updated state and the resting index.  The fuel is the starting index: the
index strictly decreases, and once it reaches `0` the loop exits, so fuel
exhaustion coincides with the `curr = 0` exit. -/
def bubbleUpLoop {α β : Type} (better : β → β → Bool) (thisPtr : Option Nat) :
    Nat → DState α β → Nat → Option (DState α β × Nat)
  | 0, s, curr => some (s, curr)
  | fuel + 1, s, curr =>
    if curr = 0 then some (s, curr)
    else
      let p := parent_index curr
      match storeRead s.store thisPtr with
      | none => none
      | some tn =>
        match s.heap.get? p with
        | none => none
        | some pPtr =>
          match storeRead s.store pPtr with
          | none => none
          | some pn =>
            if better tn.weight pn.weight then
              match pPtr with
              | none => none
              | some qp =>
                bubbleUpLoop better thisPtr fuel
                  { s with store := setHI s.store qp curr,
                           heap := lset s.heap curr pPtr } p
            else some (s, curr)

/-- `MinHeap_bubble_up(minheap, curr_index, isBetterThan)`: read the node
pointer at `curr_index`, run the sift-up loop, then store the node at its
resting slot and record that slot in its `heapIndex`. -/
def MinHeap_bubble_up {α β : Type} (better : β → β → Bool) (s : DState α β)
    (curr_index : Nat) : Option (DState α β) :=
  match s.heap.get? curr_index with
  | none => none
  | some thisPtr =>
    match bubbleUpLoop better thisPtr curr_index s curr_index with
    | none => none
    | some (s1, rest) =>
      match thisPtr with
      | none => none
      | some q =>
        if q < s1.store.length then
          some { s1 with store := setHI s1.store q rest,
                         heap := lset s1.heap rest thisPtr }
        else none

/-- Child selection of the sift-down (lines 288-291): the left child is the
candidate unless the right child exists and is strictly better ("left wins
ties").  Returns the chosen index, pointer and weight. -/
def pickChild {α β : Type} (better : β → β → Bool)
    (store : List (MinHeapNode α β)) (heap : List (Option Nat))
    (size li ri : Nat) (lp : Option Nat) (lw : β) :
    Option (Nat × Option Nat × β) :=
  if ri < size then
    match heap.get? ri with
    | none => none
    | some rp =>
      match storeRead store rp with
      | none => none
      | some rn =>
        some (if better rn.weight lw then (ri, rp, rn.weight) else (li, lp, lw))
  else some (li, lp, lw)

/-- The while loop of `MinHeap_pluck_min` (lines 287-299): the replacement
node's pointer (`currPtr`) is held out of the array; while the better child
is strictly better than the replacement, shift that child up (updating its
`heapIndex`) and descend.  Fuel `size` is sufficient: the index strictly
increases and the loop requires `2*curr+1 < size`. -/
def bubbleDownLoop {α β : Type} (better : β → β → Bool)
    (currPtr : Option Nat) :
    Nat → DState α β → Nat → Option (DState α β × Nat)
  | 0, s, curr => some (s, curr)
  | fuel + 1, s, curr =>
    if left_child_index curr < s.size then
      match s.heap.get? (left_child_index curr) with
      | none => none
      | some lp =>
        match storeRead s.store lp with
        | none => none
        | some ln =>
          match pickChild better s.store s.heap s.size (left_child_index curr)
              (right_child_index curr) lp ln.weight with
          | none => none
          | some (ci, cPtr, cw) =>
            match storeRead s.store currPtr with
            | none => none
            | some curn =>
              if better cw curn.weight then
                match cPtr with
                | none => none
                | some qc =>
                  bubbleDownLoop better currPtr fuel
                    { s with store := setHI s.store qc curr,
                             heap := lset s.heap curr cPtr } ci
              else some (s, curr)
    else some (s, curr)

/-- `MinHeap_pluck_min(minheap, isBetterThan)` (lines 271-303): `NULL` on an
empty heap; otherwise save the root pointer, take the last pointer out
(clearing its slot and decrementing `size`), return early if the heap
emptied, else sift the replacement down from the root and write it at its
resting slot, recording that slot in its `heapIndex`.  The first component
of the returned pair is the returned `MinHeapNode*`. -/
def MinHeap_pluck_min {α β : Type} (better : β → β → Bool) (s : DState α β) :
    Option (Option Nat × DState α β) :=
  if s.size = 0 then some (none, s)
  else
    match s.heap.get? 0 with
    | none => none
    | some minPtr =>
      match s.heap.get? (s.size - 1) with
      | none => none
      | some currPtr =>
        let s1 : DState α β :=
          { s with size := s.size - 1, heap := lset s.heap (s.size - 1) none }
        if s1.size = 0 then some (minPtr, s1)
        else
          match bubbleDownLoop better currPtr s1.size s1 0 with
          | none => none
          | some (s2, rest) =>
            let s3 : DState α β := { s2 with heap := lset s2.heap rest currPtr }
            match currPtr with
            | none => none
            | some q =>
              if q < s3.store.length then
                some (minPtr, { s3 with store := setHI s3.store q rest })
              else none

/-- `MinHeap_update_key(minheap, node, NodeIsNew, isBetterThan)` (lines
304-315): on a new node, `exit(2)` if the heap is full, else append the
node's pointer at slot `size` and increment `size`; in all cases sift up
from whatever the node's `heapIndex` field currently holds.  `np` is the
arena index the `MinHeapNode*` argument points to; the heap's `capacity`
field is the backing array's length. -/
def MinHeap_update_key {α β : Type} (better : β → β → Bool) (s : DState α β)
    (np : Nat) (NodeIsNew : Bool) : CRes (DState α β) :=
  if NodeIsNew then
    if s.size = s.heap.length then CRes.fatal s
    else
      if s.size < s.heap.length then
        let s1 : DState α β :=
          { s with heap := lset s.heap s.size (some np), size := s.size + 1 }
        match s1.store.get? np with
        | none => CRes.undef
        | some nd =>
          match MinHeap_bubble_up better s1 nd.heapIndex with
          | none => CRes.undef
          | some s2 => CRes.ok s2
      else CRes.undef
  else
    match s.store.get? np with
    | none => CRes.undef
    | some nd =>
      match MinHeap_bubble_up better s nd.heapIndex with
      | none => CRes.undef
      | some s2 => CRes.ok s2

/-- Swap-based sift-down, following the spec's words: "repeatedly compares
the vacating slot's replacement against its two children, swapping with
whichever child is better (left wins ties against right under identical
comparison) while that child is better than the replacement, updating
`heap_position` fields at each swap, terminating at a leaf or when order
holds."  Unlike the source's loop, the replacement lives in the array the
whole time and each swap exchanges two slots and updates both `heapIndex`
fields. -/
def siftDownSpecLoop {α β : Type} (better : β → β → Bool) :
    Nat → DState α β → Nat → Option (DState α β)
  | 0, t, _ => some t
  | fuel + 1, t, curr =>
    if left_child_index curr < t.size then
      match t.heap.get? (left_child_index curr) with
      | none => none
      | some lp =>
        match storeRead t.store lp with
        | none => none
        | some ln =>
          match pickChild better t.store t.heap t.size (left_child_index curr)
              (right_child_index curr) lp ln.weight with
          | none => none
          | some (ci, cPtr, cw) =>
            match t.heap.get? curr with
            | none => none
            | some cp =>
              match storeRead t.store cp with
              | none => none
              | some repl =>
                if better cw repl.weight then
                  match cp, cPtr with
                  | some qc, some qch =>
                    siftDownSpecLoop better fuel
                      { t with store := setHI (setHI t.store qch curr) qc ci,
                               heap := lset (lset t.heap curr cPtr) ci cp } ci
                  | _, _ => none
                else some t
    else some t

/-- Extract-min following the spec's words: "returns none if the heap is
empty. Otherwise saves the root, moves the last element into the root slot
(shrinking size by one), and if the heap is non-empty after the move, calls
`sift_down_from_root`. Returns the saved former root."  Moving the last
element into the root slot records the new position in its `heapIndex`
(the spec's synchronous `heap_position` invariant). -/
def MinHeap_pluck_min_spec {α β : Type} (better : β → β → Bool)
    (s : DState α β) : Option (Option Nat × DState α β) :=
  if s.size = 0 then some (none, s)
  else
    match s.heap.get? 0 with
    | none => none
    | some rootPtr =>
      match s.heap.get? (s.size - 1) with
      | none => none
      | some lastPtr =>
        let s1 : DState α β :=
          { s with size := s.size - 1, heap := lset s.heap (s.size - 1) none }
        if s1.size = 0 then some (rootPtr, s1)
        else
          match lastPtr with
          | none => none
          | some q =>
            if q < s1.store.length then
              match siftDownSpecLoop better s1.size
                  { s1 with store := setHI s1.store q 0,
                            heap := lset s1.heap 0 (some q) } 0 with
              | none => none
              | some s3 => some (rootPtr, s3)
            else none

/-- Decidable check of the binary-heap invariant quoted by the spec:
`heap[parent(i)]` is-better-than-or-equal `heap[i]` for every resident
index `i`; under a strict total order "better-or-equal" is the negation of
the reversed strict comparison.  Unreadable slots count as violations. -/
def heapOK {α β : Type} (better : β → β → Bool) (s : DState α β) : Bool :=
  (List.range s.size).all fun i =>
    if i = 0 then true
    else
      match s.heap.get? i, s.heap.get? (parent_index i) with
      | some cp, some pp =>
        match storeRead s.store cp, storeRead s.store pp with
        | some cn, some pn => !(better cn.weight pn.weight)
        | _, _ => false
      | _, _ => false

/-- The settle/expand loop of `Dijkstra_1source_to_all_else` (line 341):
while `MinHeap_pluck_min` yields a node, hand it to the neighbor callback.
Fuel exhaustion (a run longer than the caller's bound) is reported as
`CRes.undef`. -/
def DijkstraLoop {α β : Type} (better : β → β → Bool)
    (cb : DState α β → Nat → CRes (DState α β)) :
    Nat → DState α β → CRes (DState α β)
  | 0, _ => CRes.undef
  | fuel + 1, s =>
    match MinHeap_pluck_min better s with
    | none => CRes.undef
    | some (none, s1) => CRes.ok s1
    | some (some p, s1) =>
      match cb s1 p with
      | CRes.ok s2 => DijkstraLoop better cb fuel s2
      | CRes.fatal s2 => CRes.fatal s2
      | CRes.undef => CRes.undef

/-- `Dijkstra_1source_to_all_else` (lines 321-345): create a heap of
capacity `n` and a table of `2n+1` slots, seat the source, write its data,
weight and `NULL` parent, `MinHeap_update_key(…, true, …)` it, then run the
settle/expand loop and return the table.  `junk` supplies the uninitialized
fields of the freshly `malloc`ed arena; `cb` is `send_neighbors`, given the
state and the settled node's arena index. -/
def Dijkstra_1source_to_all_else {α β : Type} (hashf : Nat → α → Nat)
    (eqf : α → α → Bool) (better : β → β → Bool)
    (cb : DState α β → Nat → CRes (DState α β)) (srcData : α) (srcWeight : β)
    (n : Nat) (junk : Nat → MinHeapNode α β) (fuel : Nat) :
    CRes (List (MinHeapNode α β)) :=
  let store0 := HashInTree_create (2 * n + 1) junk
  let s0 : DState α β := { store := store0, heap := MinHeap_create n, size := 0 }
  match HashInTree_find_seat store0 hashf eqf srcData with
  | none => CRes.undef
  | some none => CRes.undef
  | some (some i) =>
    match store0.get? i with
    | none => CRes.undef
    | some nd =>
      let src : MinHeapNode α β :=
        { nd with data := some srcData, weight := srcWeight, parent := none }
      let s1 : DState α β := { s0 with store := lset store0 i src }
      match MinHeap_update_key better s1 i true with
      | CRes.fatal s2 => CRes.fatal s2.store
      | CRes.undef => CRes.undef
      | CRes.ok s2 =>
        match DijkstraLoop better cb fuel s2 with
        | CRes.ok s3 => CRes.ok s3.store
        | CRes.fatal s3 => CRes.fatal s3.store
        | CRes.undef => CRes.undef

/-- Strict comparison on natural-number weights (the demos' `isBetterThan`). -/
def ltb (a b : Nat) : Bool := decide (a < b)

/-- Modular hash, the demos' `hashfunc`. -/
def hmod (n k : Nat) : Nat := k % n

/-- Equality test on natural-number keys, the demos' `isEqual`. -/
def eqb (a b : Nat) : Bool := decide (a = b)

def nodeP : MinHeapNode Nat Nat :=
  { data := some 10, weight := 5, parent := none, heapIndex := 0 }

def nodeX : MinHeapNode Nat Nat :=
  { data := some 11, weight := 1, parent := none, heapIndex := 0 }

/-- A heap of capacity 2 holding only `nodeP` (arena slot 0) at the root;
arena slot 1 holds `nodeX`, not yet resident, its `heapIndex` field still
carrying the stale/uninitialized value 0. -/
def sBug : DState Nat Nat :=
  { store := [nodeP, nodeX], heap := [some 0, none], size := 1 }

/-- A neighbor callback that performs no insertions or updates (a source
node with zero outgoing edges). -/
def cbNoop : DState Nat Nat → Nat → CRes (DState Nat Nat) := fun s _ => CRes.ok s

/-- Uninitialized arena contents whose `heapIndex` garbage happens to be 1. -/
def junkOne : Nat → MinHeapNode Nat Nat :=
  fun _ => { data := none, weight := 0, parent := none, heapIndex := 1 }

/-- Uninitialized arena contents whose `heapIndex` garbage happens to be 0
(what a freshly zeroed page gives). -/
def junkZero : Nat → MinHeapNode Nat Nat :=
  fun _ => { data := none, weight := 0, parent := none, heapIndex := 0 }

/-- A completely full one-slot table whose occupant is the key 7. -/
def tblFull : List (MinHeapNode Nat Nat) :=
  [ { data := some 7, weight := 0, parent := none, heapIndex := 0 } ]

/-- A three-slot table with key 7 in slot 0 and the other slots empty. -/
def tbl9 : List (MinHeapNode Nat Nat) :=
  [ { data := some 7, weight := 0, parent := none, heapIndex := 0 },
    { data := none, weight := 0, parent := none, heapIndex := 0 },
    { data := none, weight := 0, parent := none, heapIndex := 0 } ]

/-- A three-slot table with every slot empty. -/
def tblE : List (MinHeapNode Nat Nat) :=
  List.replicate 3 { data := none, weight := 0, parent := none, heapIndex := 0 }

theorem length_lset {γ : Type} (l : List γ) (i : Nat) (v : γ) :
    (lset l i v).length = l.length := by
  induction l generalizing i with
  | nil => rfl
  | cons x xs ih =>
    cases i with
    | zero => rfl
    | succ n => simp [lset, ih]

theorem get?_lset_self {γ : Type} (l : List γ) (i : Nat) (v : γ)
    (h : i < l.length) : (lset l i v).get? i = some v := by
  induction l generalizing i with
  | nil => simp at h
  | cons x xs ih =>
    cases i with
    | zero => rfl
    | succ n =>
      simp only [List.length_cons] at h
      simpa [lset] using ih n (by omega)

theorem get?_lset_ne {γ : Type} (l : List γ) (i j : Nat) (v : γ)
    (h : i ≠ j) : (lset l i v).get? j = l.get? j := by
  induction l generalizing i j with
  | nil => rfl
  | cons x xs ih =>
    cases i with
    | zero =>
      cases j with
      | zero => exact absurd rfl h
      | succ m => rfl
    | succ n =>
      cases j with
      | zero => rfl
      | succ m => simpa [lset] using ih n m (by omega)

theorem lset_lset_same {γ : Type} (l : List γ) (i : Nat) (v w : γ) :
    lset (lset l i v) i w = lset l i w := by
  induction l generalizing i with
  | nil => rfl
  | cons x xs ih =>
    cases i with
    | zero => rfl
    | succ n => simp [lset, ih]

theorem setHI_length {α β : Type} (st : List (MinHeapNode α β)) (q i : Nat) :
    (setHI st q i).length = st.length := by
  unfold setHI
  cases h : st.get? q with
  | none => rfl
  | some nd => exact length_lset st q _

theorem lset_comm {γ : Type} (l : List γ) (i j : Nat) (v w : γ) (h : i ≠ j) :
    lset (lset l i v) j w = lset (lset l j w) i v := by
  induction l generalizing i j with
  | nil => rfl
  | cons x xs ih =>
    cases i with
    | zero =>
      cases j with
      | zero => exact absurd rfl h
      | succ m => rfl
    | succ n =>
      cases j with
      | zero => rfl
      | succ m => simp [lset, ih n m (by omega)]

theorem storeRead_some {α β : Type} (st : List (MinHeapNode α β)) (r : Nat) :
    storeRead st (some r) = st.get? r := rfl

theorem get?_setHI_ne {α β : Type} (st : List (MinHeapNode α β))
    (q i r : Nat) (h : r ≠ q) : (setHI st q i).get? r = st.get? r := by
  unfold setHI
  cases hq : st.get? q with
  | none => rfl
  | some nd => exact get?_lset_ne st q r _ (fun hc => h hc.symm)

theorem get?_setHI_self {α β : Type} (st : List (MinHeapNode α β))
    (q i : Nat) :
    (setHI st q i).get? q =
      (st.get? q).map (fun nd => { nd with heapIndex := i }) := by
  unfold setHI
  cases hq : st.get? q with
  | none => exact hq
  | some nd =>
    have hlen : q < st.length := (List.get?_eq_some.mp hq).1
    exact get?_lset_self st q _ hlen

theorem storeRead_setHI {α β : Type} (st : List (MinHeapNode α β))
    (q i : Nat) (p : Option Nat) :
    storeRead (setHI st q i) p =
      (storeRead st p).map
        (fun nd => if p = some q then { nd with heapIndex := i } else nd) := by
  cases p with
  | none => rfl
  | some r =>
    rw [storeRead_some, storeRead_some]
    by_cases hrq : r = q
    · subst hrq
      rw [get?_setHI_self]
      cases st.get? r <;> simp
    · rw [get?_setHI_ne st q i r hrq]
      have hcond : ¬((some r : Option Nat) = some q) :=
        fun hc => hrq (Option.some_inj.mp hc)
      cases st.get? r <;> simp [hcond]

theorem storeRead_setHI_weight {α β : Type} (st : List (MinHeapNode α β))
    (q i : Nat) (p : Option Nat) :
    (storeRead (setHI st q i) p).map (fun nd => nd.weight) =
      (storeRead st p).map (fun nd => nd.weight) := by
  rw [storeRead_setHI, Option.map_map]
  cases storeRead st p with
  | none => rfl
  | some nd =>
    by_cases h : p = some q <;> simp [Function.comp, h]

theorem setHI_setHI_same {α β : Type} (st : List (MinHeapNode α β))
    (q i j : Nat) : setHI (setHI st q i) q j = setHI st q j := by
  apply List.ext_get?
  intro n
  by_cases hn : n = q
  · subst hn
    rw [get?_setHI_self (setHI st n i) n j, get?_setHI_self st n i,
      get?_setHI_self st n j, Option.map_map]
    cases st.get? n <;> simp
  · rw [get?_setHI_ne (setHI st q i) q j n hn, get?_setHI_ne st q i n hn,
      get?_setHI_ne st q j n hn]

theorem setHI_comm {α β : Type} (st : List (MinHeapNode α β))
    (q r i j : Nat) (h : q ≠ r) :
    setHI (setHI st q i) r j = setHI (setHI st r j) q i := by
  apply List.ext_get?
  intro n
  by_cases hnq : n = q
  · subst hnq
    rw [get?_setHI_ne (setHI st n i) r j n h, get?_setHI_self st n i,
      get?_setHI_self (setHI st r j) n i, get?_setHI_ne st r j n h]
  · by_cases hnr : n = r
    · subst hnr
      rw [get?_setHI_self (setHI st q i) n j, get?_setHI_ne st q i n hnq,
        get?_setHI_ne (setHI st n j) q i n hnq, get?_setHI_self st n j]
    · rw [get?_setHI_ne (setHI st q i) r j n hnr, get?_setHI_ne st q i n hnq,
        get?_setHI_ne (setHI st r j) q i n hnq, get?_setHI_ne st r j n hnr]

theorem pickChild_setHI_lset {α β : Type} (better : β → β → Bool)
    (st : List (MinHeapNode α β)) (hp : List (Option Nat)) (q i m : Nat)
    (v : Option Nat) (size li ri : Nat) (lp : Option Nat) (lw : β)
    (hne : ri ≠ m) :
    pickChild better (setHI st q i) (lset hp m v) size li ri lp lw =
      pickChild better st hp size li ri lp lw := by
  unfold pickChild
  by_cases h : ri < size
  · rw [if_pos h, if_pos h, get?_lset_ne hp m ri v (fun hc => hne hc.symm)]
    cases hr : hp.get? ri with
    | none => rfl
    | some rp =>
      simp only []
      rw [storeRead_setHI]
      cases hrr : storeRead st rp with
      | none => rfl
      | some rn =>
        have hw : (if rp = some q then { rn with heapIndex := i } else rn).weight
            = rn.weight := by
          by_cases hpq : rp = some q <;> simp [hpq]
        simp only [Option.map_some']
        rw [hw]
  · rw [if_neg h, if_neg h]

theorem bubbleDownLoop_store_length {α β : Type} (better : β → β → Bool)
    (cp : Option Nat) :
    ∀ (fuel : Nat) (s : DState α β) (curr : Nat) (s2 : DState α β) (r : Nat),
    bubbleDownLoop better cp fuel s curr = some (s2, r) →
    s2.store.length = s.store.length := by
  intro fuel
  induction fuel with
  | zero =>
    intro s curr s2 r h
    simp only [bubbleDownLoop, Option.some.injEq, Prod.mk.injEq] at h
    rw [← h.1]
  | succ fuel ih =>
    intro s curr s2 r h
    simp only [bubbleDownLoop] at h
    split at h
    · split at h
      · exact Option.noConfusion h
      · split at h
        · exact Option.noConfusion h
        · split at h
          · exact Option.noConfusion h
          · split at h
            · exact Option.noConfusion h
            · split at h
              · split at h
                · exact Option.noConfusion h
                · have := ih _ _ _ _ h
                  rw [this]
                  exact setHI_length _ _ _
              · simp only [Option.some.injEq, Prod.mk.injEq] at h
                rw [← h.1]
    · simp only [Option.some.injEq, Prod.mk.injEq] at h
      rw [← h.1]

theorem siftDown_swap_eq_hole {α β : Type} (better : β → β → Bool) :
    ∀ (fuel : Nat) (s : DState α β) (q curr : Nat),
    siftDownSpecLoop better fuel
      { s with store := setHI s.store q curr,
               heap := lset s.heap curr (some q) } curr
    = (bubbleDownLoop better (some q) fuel s curr).map
        (fun pr => { pr.1 with store := setHI pr.1.store q pr.2,
                               heap := lset pr.1.heap pr.2 (some q) }) := by
  intro fuel
  induction fuel with
  | zero => intro s q curr; rfl
  | succ fuel ih =>
    intro s q curr
    have hne : curr ≠ left_child_index curr := by
      unfold left_child_index; omega
    have hner : right_child_index curr ≠ curr := by
      unfold right_child_index; omega
    simp only [siftDownSpecLoop, bubbleDownLoop]
    by_cases hli : left_child_index curr < s.size
    · rw [if_pos hli, if_pos hli,
        get?_lset_ne s.heap curr (left_child_index curr) (some q) hne]
      cases hl : s.heap.get? (left_child_index curr) with
      | none => rfl
      | some lp =>
        simp only []
        rw [storeRead_setHI]
        cases hlr : storeRead s.store lp with
        | none => rfl
        | some ln =>
          simp only [Option.map_some']
          have hw : (if lp = some q then { ln with heapIndex := curr } else ln).weight
              = ln.weight := by
            by_cases hpq : lp = some q <;> simp [hpq]
          rw [hw, pickChild_setHI_lset better s.store s.heap q curr curr (some q)
            s.size (left_child_index curr) (right_child_index curr) lp ln.weight hner]
          cases hpc : pickChild better s.store s.heap s.size (left_child_index curr)
              (right_child_index curr) lp ln.weight with
          | none => rfl
          | some trip =>
            obtain ⟨ci, cPtr, cw⟩ := trip
            simp only []
            have hcurrlen : curr < s.heap.length := by
              have hlen := (List.get?_eq_some.mp hl).1
              unfold left_child_index at hlen; omega
            rw [get?_lset_self s.heap curr (some q) hcurrlen]
            simp only []
            rw [storeRead_setHI]
            cases hsq : storeRead s.store (some q) with
            | none => rfl
            | some nq =>
              simp only [Option.map_some', if_true]
              by_cases hcmp : better cw nq.weight
              · rw [if_pos hcmp, if_pos hcmp]
                cases cPtr with
                | none => rfl
                | some qch =>
                  simp only []
                  have hstore : setHI (setHI (setHI s.store q curr) qch curr) q ci
                      = setHI (setHI s.store qch curr) q ci := by
                    by_cases hqq : qch = q
                    · subst hqq
                      rw [setHI_setHI_same, setHI_setHI_same]
                    · rw [setHI_comm s.store q qch curr curr
                        (fun hc => hqq hc.symm), setHI_setHI_same]
                  have hheap : lset (lset (lset s.heap curr (some q)) curr
                        (some qch)) ci (some q)
                      = lset (lset s.heap curr (some qch)) ci (some q) := by
                    rw [lset_lset_same]
                  rw [hstore, hheap]
                  exact ih { s with store := setHI s.store qch curr,
                                    heap := lset s.heap curr (some qch) } q ci
              · rw [if_neg hcmp, if_neg hcmp]
                rfl
    · rw [if_neg hli, if_neg hli]
      rfl

/-- C6: MinHeap_pluck_min returns none (NULL) when the heap is empty;
otherwise it saves the root, moves the last element into the root slot,
decrements size by one, performs a sift-down from the root only if the heap
is still non-empty after the move, and returns the saved former root.  The
statement is a refinement: the source's hole-based implementation computes
exactly the spec-worded `MinHeap_pluck_min_spec`. -/
theorem pluck_min_refines_spec_extract_min {α β : Type}
    (better : β → β → Bool) (s : DState α β) :
    MinHeap_pluck_min better s = MinHeap_pluck_min_spec better s := by
  unfold MinHeap_pluck_min MinHeap_pluck_min_spec
  by_cases h0 : s.size = 0
  · rw [if_pos h0, if_pos h0]
  · rw [if_neg h0, if_neg h0]
    cases hr0 : s.heap.get? 0 with
    | none => rfl
    | some minPtr =>
      simp only []
      cases hrl : s.heap.get? (s.size - 1) with
      | none => rfl
      | some currPtr =>
        simp only []
        by_cases h1 : s.size - 1 = 0
        · rw [if_pos h1, if_pos h1]
        · rw [if_neg h1, if_neg h1]
          cases currPtr with
          | none =>
            cases hbd : bubbleDownLoop better none (s.size - 1)
                { s with size := s.size - 1,
                         heap := lset s.heap (s.size - 1) none } 0 with
            | none => rfl
            | some pr =>
              obtain ⟨s2, rest⟩ := pr
              simp only []
          | some q =>
            simp only []
            by_cases hq : q < s.store.length
            · rw [if_pos hq]
              rw [siftDown_swap_eq_hole better (s.size - 1)
                { s with size := s.size - 1,
                         heap := lset s.heap (s.size - 1) none } q 0]
              cases hbd : bubbleDownLoop better (some q) (s.size - 1)
                  { s with size := s.size - 1,
                           heap := lset s.heap (s.size - 1) none } 0 with
              | none => rfl
              | some pr =>
                obtain ⟨s2, rest⟩ := pr
                simp only [Option.map_some']
                have hlen : s2.store.length = s.store.length :=
                  bubbleDownLoop_store_length better (some q) (s.size - 1)
                    { s with size := s.size - 1,
                             heap := lset s.heap (s.size - 1) none } 0 s2 rest hbd
                rw [if_pos (by rw [hlen]; exact hq)]
            · rw [if_neg hq]
              cases hbd : bubbleDownLoop better (some q) (s.size - 1)
                  { s with size := s.size - 1,
                           heap := lset s.heap (s.size - 1) none } 0 with
              | none => rfl
              | some pr =>
                obtain ⟨s2, rest⟩ := pr
                simp only []
                have hlen : s2.store.length = s.store.length :=
                  bubbleDownLoop_store_length better (some q) (s.size - 1)
                    { s with size := s.size - 1,
                             heap := lset s.heap (s.size - 1) none } 0 s2 rest hbd
                rw [if_neg (by rw [hlen]; exact hq)]

theorem findSeatAux_full_none {α β : Type} (nodes : List (MinHeapNode α β))
    (eqf : α → α → Bool) (key : α) (hash : Nat)
    (hfull : nodes.all (fun nd => match nd.data with
      | some d => !(eqf key d) | none => false) = true) :
    ∀ (fuel index : Nat), index < nodes.length →
    findSeatAux nodes eqf key hash index fuel = some none := by
  intro fuel
  induction fuel with
  | zero => intro index _; rfl
  | succ fuel ih =>
    intro index hidx
    have hget : nodes.get? index = some (nodes.get ⟨index, hidx⟩) :=
      List.get?_eq_get hidx
    have hmem : nodes.get ⟨index, hidx⟩ ∈ nodes := nodes.get_mem _ _
    have hnd := List.all_eq_true.mp hfull _ hmem
    unfold findSeatAux
    rw [hget]
    simp only []
    cases hd : (nodes.get ⟨index, hidx⟩).data with
    | none => rw [hd] at hnd; simp at hnd
    | some d =>
      simp only []
      rw [hd] at hnd
      have heq : eqf key d = false := by simpa using hnd
      rw [heq]
      simp only [Bool.false_eq_true, if_false]
      have hbound : probeNextSeat nodes.length index < nodes.length := by
        unfold probeNextSeat
        exact Nat.mod_lt _ (by omega)
      by_cases hwrap : probeNextSeat nodes.length index = hash
      · rw [if_pos hwrap]
      · rw [if_neg hwrap]
        exact ih _ hbound

theorem getNodeAux_no_match_none {α β : Type} (nodes : List (MinHeapNode α β))
    (eqf : α → α → Bool) (key : α) (hash : Nat)
    (hnm : nodes.all (fun nd => nd.data.all (fun d => !(eqf key d))) = true) :
    ∀ (fuel index : Nat), index < nodes.length →
    getNodeAux nodes eqf key hash index fuel = some none := by
  intro fuel
  induction fuel with
  | zero => intro index _; rfl
  | succ fuel ih =>
    intro index hidx
    have hget : nodes.get? index = some (nodes.get ⟨index, hidx⟩) :=
      List.get?_eq_get hidx
    have hmem : nodes.get ⟨index, hidx⟩ ∈ nodes := nodes.get_mem _ _
    have hnd := List.all_eq_true.mp hnm _ hmem
    unfold getNodeAux
    rw [hget]
    simp only []
    cases hd : (nodes.get ⟨index, hidx⟩).data with
    | none => rfl
    | some d =>
      simp only []
      rw [hd] at hnd
      have heq : eqf key d = false := by simpa [Option.all] using hnd
      rw [heq]
      simp only [Bool.false_eq_true, if_false]
      have hbound : probeNextLookup nodes.length index < nodes.length := by
        unfold probeNextLookup
        by_cases hl : index = nodes.length - 1
        · rw [if_pos hl]; omega
        · rw [if_neg hl]; omega
      by_cases hwrap : probeNextLookup nodes.length index = hash
      · rw [if_pos hwrap]
      · rw [if_neg hwrap]
        exact ih _ hbound

theorem findSeatAuxT_frame {α β : Type} (eqf : α → α → Bool) (key : α)
    (hash : Nat) :
    ∀ (fuel : Nat) (nodes : List (MinHeapNode α β)) (index : Nat),
    (findSeatAuxT eqf key hash fuel nodes index).2 = nodes := by
  intro fuel
  induction fuel with
  | zero => intro nodes index; rfl
  | succ fuel ih =>
    intro nodes index
    unfold findSeatAuxT
    cases nodes.get? index with
    | none => rfl
    | some nd =>
      simp only []
      cases nd.data with
      | none => rfl
      | some d =>
        simp only []
        by_cases he : eqf key d = true
        · rw [if_pos he]
        · rw [if_neg he]
          by_cases hw : probeNextSeat nodes.length index = hash
          · rw [if_pos hw]
          · rw [if_neg hw]
            exact ih nodes _

theorem getNodeAuxT_frame {α β : Type} (eqf : α → α → Bool) (key : α)
    (hash : Nat) :
    ∀ (fuel : Nat) (nodes : List (MinHeapNode α β)) (index : Nat),
    (getNodeAuxT eqf key hash fuel nodes index).2 = nodes := by
  intro fuel
  induction fuel with
  | zero => intro nodes index; rfl
  | succ fuel ih =>
    intro nodes index
    unfold getNodeAuxT
    cases nodes.get? index with
    | none => rfl
    | some nd =>
      simp only []
      cases nd.data with
      | none => rfl
      | some d =>
        simp only []
        by_cases he : eqf key d = true
        · rw [if_pos he]
        · rw [if_neg he]
          by_cases hw : probeNextLookup nodes.length index = hash
          · rw [if_pos hw]
          · rw [if_neg hw]
            exact ih nodes _

/-- C1: the spec says a new-node `MinHeap_update_key` "records that position
in the record's heapIndex field, and then sifts up starting from the
record's current (newly appended) position".  The code appends but never
writes the append position into `heapIndex` (lines 310-314 contain no such
store, and `HashInTree_create` initializes only `data`), so the sift-up
starts from the stale field value instead.  Evaluated at the failing input:
`nodeX` (weight 1) is appended behind the root `nodeP` (weight 5) while its
`heapIndex` field holds the stale value 0; the call leaves `nodeX` unsifted
at slot 1 and its `heapIndex` still 0 — although `nodeX` is strictly better
than the root, so the claimed behavior would have moved it to slot 0. -/
theorem update_key_insert_skips_position_recording :
    ltb nodeX.weight nodeP.weight = true ∧
    MinHeap_update_key ltb sBug 1 true =
      CRes.ok { store := [nodeP, nodeX], heap := [some 0, some 1], size := 2 } ∧
    (storeRead ([nodeP, nodeX] : List (MinHeapNode Nat Nat)) (some 1)).map
      (fun nd => nd.heapIndex) = some 0 := by
  decide

/-- C4: the binary-heap invariant does not survive every `MinHeap_update_key`
call whose stated preconditions (size within capacity, a strict total
order) hold: inserting `nodeX` (weight 1, stale `heapIndex` 0) into the
singleton heap `sBug` (root weight 5, size 1 < capacity 2) yields a state
where `heapOK` is false, because the sift-up ran from the stale index. -/
theorem heap_property_violated_after_insert :
    heapOK ltb sBug = true ∧
    MinHeap_update_key ltb sBug 1 true =
      CRes.ok { store := [nodeP, nodeX], heap := [some 0, some 1], size := 2 } ∧
    heapOK ltb { store := [nodeP, nodeX], heap := [some 0, some 1], size := 2 }
      = false := by
  decide

/-- C5: after the insert of `nodeX` into `sBug`, heap slot 1 holds the
pointer to arena record 1 (`nodeX`) but that record's `heapIndex` field
still reads 0: the field does not equal the slot that actually holds the
record, contradicting the claimed invariant. -/
theorem heapIndex_field_stale_after_insert :
    MinHeap_update_key ltb sBug 1 true =
      CRes.ok { store := [nodeP, nodeX], heap := [some 0, some 1], size := 2 } ∧
    ({ store := [nodeP, nodeX], heap := [some 0, some 1], size := 2 }
      : DState Nat Nat).heap.get? 1 = some (some 1) ∧
    (storeRead ([nodeP, nodeX] : List (MinHeapNode Nat Nat)) (some 1)).map
      (fun nd => nd.heapIndex) = some 0 := by
  decide

/-- C2 counterexample: on a completely full table with no matching occupant
(`tblFull` holds key 7, the probe is for key 5), `HashInTree_find_seat`
returns `some none` — the embedding of a normal `return NULL` to the
caller, a recoverable result.  The function body (lines 185-199) contains
no `exit`/abort at all, so the claimed fatal termination does not happen. -/
theorem find_seat_full_returns_null_counterexample :
    HashInTree_find_seat tblFull hmod eqb 5 = some none := by
  decide

/-- C2 amended: for every key and every completely full table in which no
occupied slot's occupant compares equal to the key (and an in-range hash,
as the header requires of `hashfunc`), `HashInTree_find_seat` returns NULL
(`some none`) to the caller — a recoverable result; the demo callers, not
the function, treat it as fatal. -/
theorem find_seat_full_no_match_returns_null {α β : Type}
    (nodes : List (MinHeapNode α β)) (hashf : Nat → α → Nat)
    (eqf : α → α → Bool) (key : α)
    (hhash : hashf nodes.length key < nodes.length)
    (hfull : nodes.all (fun nd => match nd.data with
      | some d => !(eqf key d) | none => false) = true) :
    HashInTree_find_seat nodes hashf eqf key = some none :=
  findSeatAux_full_none nodes eqf key _ hfull _ _ hhash

/-- Witness for `find_seat_full_no_match_returns_null` at the concrete full
table `tblFull` and key 5. -/
theorem find_seat_full_no_match_returns_null_witness :
    hmod tblFull.length 5 < tblFull.length ∧
    HashInTree_find_seat tblFull hmod eqb 5 = some none :=
  ⟨by decide,
   find_seat_full_no_match_returns_null tblFull hmod eqb 5 (by decide) (by decide)⟩

/-- C3: with a neighbor callback that performs no insertions or updates,
`Dijkstra_1source_to_all_else` is claimed to return a table holding exactly
the source record.  The code instead performs its initial sift-up from the
source record's uninitialized `heapIndex` field; evaluated at the failing
input (one declared node, garbage `heapIndex` = 1), the very first
`MinHeap_update_key` reads heap slot 1 of a capacity-1 array — undefined
behavior, modelled as `CRes.undef` — before the main loop ever runs. -/
theorem dijkstra_zero_edge_source_uninit_heapIndex_undef :
    Dijkstra_1source_to_all_else hmod eqb ltb cbNoop 0 0 1 junkOne 5 =
      CRes.undef := by
  decide

/-- With zeroed malloc junk (`heapIndex` = 0, what the spec's intent
presumes), the same zero-edge run returns exactly one occupied record:
source key 0, the caller's identity weight, no predecessor — the behavior
Scenario A describes. -/
theorem dijkstra_zero_edge_source_zero_junk_ok :
    Dijkstra_1source_to_all_else hmod eqb ltb cbNoop 0 0 1 junkZero 5 =
      CRes.ok
        [ { data := some 0, weight := 0, parent := none, heapIndex := 0 },
          { data := none, weight := 0, parent := none, heapIndex := 0 },
          { data := none, weight := 0, parent := none, heapIndex := 0 } ] := by
  decide

/-- C7: the sift-down inside `MinHeap_pluck_min` (the hole-based loop plus
its final placement writes) computes exactly the swap-based sift-down the
spec describes: at every level the replacement is compared against its two
children, the left child winning ties (right chosen only when strictly
better than left), swapping only while that child is strictly better than
the replacement, with `heapIndex` fields updated at each swap. -/
theorem pluck_sift_down_matches_swap_spec {α β : Type}
    (better : β → β → Bool) (s : DState α β) (q : Nat) :
    siftDownSpecLoop better s.size
      { s with store := setHI s.store q 0,
               heap := lset s.heap 0 (some q) } 0
    = (bubbleDownLoop better (some q) s.size s 0).map
        (fun pr => { pr.1 with store := setHI pr.1.store q pr.2,
                               heap := lset pr.1.heap pr.2 (some q) }) :=
  siftDown_swap_eq_hole better s.size s q 0

/-- C8: for every heap whose size equals its capacity (the backing array's
length), `MinHeap_update_key` with `NodeIsNew = true` exits fatally at once:
the result is `CRes.fatal s` carrying the input state unmodified, because
the `exit(2)` guard (line 311) precedes every mutation. -/
theorem update_key_full_heap_fatal {α β : Type} (better : β → β → Bool)
    (s : DState α β) (np : Nat) (h : s.size = s.heap.length) :
    MinHeap_update_key better s np true = CRes.fatal s := by
  unfold MinHeap_update_key
  rw [if_pos rfl, if_pos h]

/-- Witness for `update_key_full_heap_fatal` at a concrete full heap. -/
theorem update_key_full_heap_fatal_witness :
    ({ store := [nodeP], heap := [some 0], size := 1 } : DState Nat Nat).size
      = ({ store := [nodeP], heap := [some 0], size := 1 }
          : DState Nat Nat).heap.length ∧
    MinHeap_update_key ltb
        { store := [nodeP], heap := [some 0], size := 1 } 0 true =
      CRes.fatal { store := [nodeP], heap := [some 0], size := 1 } :=
  ⟨rfl, update_key_full_heap_fatal ltb
    { store := [nodeP], heap := [some 0], size := 1 } 0 rfl⟩

/-- C9: the lookup's probe increment agrees with seat-claiming's on every
in-range index (same linear probe sequence), and for any key that no
occupied slot matches — in particular a key never given a seat —
`HashInTree_get_node_by_data` returns "not found" (`some none`), stopping
at the first empty slot or after a full wrap. -/
theorem lookup_probe_and_miss :
    (∀ (n i : Nat), i < n → probeNextLookup n i = probeNextSeat n i) ∧
    (∀ (α β : Type) (nodes : List (MinHeapNode α β)) (hashf : Nat → α → Nat)
       (eqf : α → α → Bool) (key : α),
       hashf nodes.length key < nodes.length →
       nodes.all (fun nd => nd.data.all (fun d => !(eqf key d))) = true →
       HashInTree_get_node_by_data nodes hashf eqf key = some none) := by
  constructor
  · intro n i h
    unfold probeNextLookup probeNextSeat
    by_cases hi : i = n - 1
    · rw [if_pos hi, hi]
      have hn : n - 1 + 1 = n := by omega
      rw [hn, Nat.mod_self]
    · rw [if_neg hi, Nat.mod_eq_of_lt (by omega)]
  · intro α β nodes hashf eqf key hh hnm
    exact getNodeAux_no_match_none nodes eqf key _ hnm _ _ hh

/-- Witness for `lookup_probe_and_miss` at the concrete table `tbl9` (key 7
seated in slot 0, slots 1 and 2 empty) and the never-seated key 5. -/
theorem lookup_probe_and_miss_witness :
    HashInTree_get_node_by_data tbl9 hmod eqb 5 = some none :=
  lookup_probe_and_miss.2 Nat Nat tbl9 hmod eqb 5 (by decide) (by decide)

/-- C10: `HashInTree_find_seat` and `HashInTree_get_node_by_data` leave the
table completely unchanged (shown on the state-threaded translations of
their loops), and claiming a seat reserves nothing: on the all-empty table
`tblE` the two distinct colliding keys 0 and 3 are both given the same
slot 0, whose `data` is still NULL. -/
theorem find_seat_lookup_leave_table_unchanged :
    (∀ (α β : Type) (nodes : List (MinHeapNode α β)) (hashf : Nat → α → Nat)
       (eqf : α → α → Bool) (key : α),
       (HashInTree_find_seat_st nodes hashf eqf key).2 = nodes ∧
       (HashInTree_get_node_by_data_st nodes hashf eqf key).2 = nodes) ∧
    HashInTree_find_seat tblE hmod eqb 0 = some (some 0) ∧
    HashInTree_find_seat tblE hmod eqb 3 = some (some 0) ∧
    (0 : Nat) ≠ 3 ∧
    (tblE.get? 0).map (fun nd => nd.data) = some none := by
  refine ⟨fun α β nodes hashf eqf key =>
    ⟨findSeatAuxT_frame eqf key _ _ nodes _, getNodeAuxT_frame eqf key _ _ nodes _⟩,
    ?_, ?_, ?_, ?_⟩ <;> decide
